import Mathlib

/-!
Verification of the coq_nvim tag-index subsystem.

Shallow embedding of `coq/databases/tags/database.py` (the `CTDB` class and
its module-level helpers) and of `coq/clients/tree_sitter/worker.py`
(the `Worker` class).

Modelling conventions:
  - SQLite `float` mtimes are modelled as `Int` (no claim depends on float
    arithmetic; the value is only stored and returned).
  - The SQL statement texts (`sql("delete", "file")`, `sql("insert", "file")`,
    `sql("insert", "tag")`, `sql("select", "files")`, `sql("select", "tags")`)
    and the schema live outside the excerpted sources; their semantics are
    modelled from the spec where a definition says so in its doc comment.
  - Python dicts / mappings are modelled as association lists; `set` union is
    modelled as list append (membership coincides).
-/

namespace CoqNvim

/-! ## Tag record model (`coq/tags/types.py` Tag, as used by `database.py`) -/

/-- A fully-populated tag record, the shape inserted into the `tags` table.
Fields and their nil defaults follow `_NIL_TAG` in
`coq/databases/tags/database.py`. -/
structure Tag where
  language : String
  path : String
  line : Nat
  kind : String
  name : String
  pattern : Option String
  typeref : Option String
  scope : Option String
  scopeKind : Option String
  access : Option String
deriving Repr, DecidableEq

/-- `_NIL_TAG` from `coq/databases/tags/database.py`: the template whose
fields fill in whatever a raw tag record omits. -/
def _NIL_TAG : Tag :=
  { language := ""
    path := ""
    line := 0
    kind := ""
    name := ""
    pattern := none
    typeref := none
    scope := none
    scopeKind := none
    access := none }

/-- A raw tag record as the extractor supplies it: every field may be absent
(`none` at the outer `Option`). A present optional field may itself be
`null` (`some none`). This models the Python dict whose keys may be missing. -/
structure RawTag where
  language : Option String := none
  path : Option String := none
  line : Option Nat := none
  kind : Option String := none
  name : Option String := none
  pattern : Option (Option String) := none
  typeref : Option (Option String) := none
  scope : Option (Option String) := none
  scopeKind : Option (Option String) := none
  access : Option (Option String) := none
deriving Repr, DecidableEq

/-- The dict merge `{**_NIL_TAG, **tag}` performed in `m2()` inside
`CTDB.reconciliate`: each field present in the raw record overrides the
template, each absent field is taken from `_NIL_TAG`. -/
def mergeTag (t : RawTag) : Tag :=
  { language := t.language.getD _NIL_TAG.language
    path := t.path.getD _NIL_TAG.path
    line := t.line.getD _NIL_TAG.line
    kind := t.kind.getD _NIL_TAG.kind
    name := t.name.getD _NIL_TAG.name
    pattern := t.pattern.getD _NIL_TAG.pattern
    typeref := t.typeref.getD _NIL_TAG.typeref
    scope := t.scope.getD _NIL_TAG.scope
    scopeKind := t.scopeKind.getD _NIL_TAG.scopeKind
    access := t.access.getD _NIL_TAG.access }

/-- A `files` table row: `{"filename": ., "filetype": ., "mtime": .}` as
yielded by `m1()` inside `CTDB.reconciliate`. -/
structure FileEntry where
  filename : String
  filetype : String
  mtime : Int
deriving Repr, DecidableEq

/-- The `Tags` mapping passed to `reconciliate`: filename ↦ (language, mtime,
raw tags); a Python dict modelled as an association list. -/
abbrev TagsMap : Type := List (String × String × Int × List RawTag)

/-! ## Database state and the primitive statements

Modelled from the spec: the SQL schema and statement texts are not in the
excerpted sources. §3 of the spec gives the `files` table (filename primary
key) and the cascade invariant "deleting a File Entry cascades to delete its
Tags", a stored Tag's containing file being named by its `path` field. -/

/-- The queryable state of one tag database: its File Entries and Tags. -/
structure DBState where
  files : List FileEntry
  tags : List Tag
deriving Repr, DecidableEq

/-- One SQL statement issued by a unit of work, in the order the cursor
executes them. -/
inductive DBOp where
  | deleteFiles (filenames : List String)
  | insertFiles (entries : List FileEntry)
  | insertTags (tags : List Tag)
  | optimize
deriving Repr, DecidableEq

/-- Modelled from the spec: effect of each statement on the queryable state.
`deleteFiles` purges the named File Entries and, by the cascade invariant of
§3, every Tag whose `path` is a purged filename; the inserts append rows;
`PRAGMA optimize` is a maintenance pass with no effect on queryable data. -/
def applyOp (st : DBState) : DBOp → DBState
  | .deleteFiles fs =>
      { files := st.files.filter fun e => decide (e.filename ∉ fs)
        tags := st.tags.filter fun t => decide (t.path ∉ fs) }
  | .insertFiles es => { st with files := st.files ++ es }
  | .insertTags ts => { st with tags := st.tags ++ ts }
  | .optimize => st

/-- The deletion set `dead | new.keys()` computed by `CTDB.reconciliate`
(Python set union, modelled as append: membership coincides). -/
def delset (dead : List String) (new : TagsMap) : List String :=
  dead ++ new.map (·.1)

/-- `m1()` of `CTDB.reconciliate`: one `files` row per entry of `new`. -/
def fileEntries (new : TagsMap) : List FileEntry :=
  new.map fun e => { filename := e.1, filetype := e.2.1, mtime := e.2.2.1 }

/-- `m2()` of `CTDB.reconciliate`: every raw tag of every file of `new`,
merged over the `_NIL_TAG` template. -/
def tagRecords (new : TagsMap) : List Tag :=
  new.flatMap fun e => e.2.2.2.map mergeTag

/-- The unit of work of `CTDB.reconciliate`: the four statements its cursor
executes, in source order — delete the deletion set, insert the file rows,
insert the tag rows, `PRAGMA optimize`. -/
def reconciliateOps (dead : List String) (new : TagsMap) : List DBOp :=
  [ .deleteFiles (delset dead new)
  , .insertFiles (fileEntries new)
  , .insertTags (tagRecords new)
  , .optimize ]

/-- State reached by running `CTDB.reconciliate dead new` to completion. -/
def reconciliate (st : DBState) (dead : List String) (new : TagsMap) : DBState :=
  (reconciliateOps dead new).foldl applyOp st

/-- Querying the tags of one file: the stored Tags whose `path` is that
file (the association used by the cascade invariant of §3). -/
def tagsOf (st : DBState) (f : String) : List Tag :=
  st.tags.filter fun t => decide (t.path = f)

/-! ## Fuzzy match query (`CTDB.select`) -/

/-- Modelled from the spec: `lower` from `coq/shared/parse.py` is not in the
excerpted sources; the spec (§4.4) requires case-insensitive matching, so it
is modelled as character-wise lowercasing. -/
def lower (s : String) : String := ⟨s.data.map Char.toLower⟩

/-- Python `str.startswith`, on the character sequences of the strings. -/
def startsWithL (s pre : String) : Bool := pre.data.isPrefixOf s.data

/-- The fields of `MatchOptions` (`coq/shared/settings.py`, outside the
excerpted sources) that `CTDB.select` reads: `fuzzy_cutoff`, `look_ahead`,
`limit`/`max_results`, `exact_matches`. The cutoff is kept abstract as an
`Int` parameter; no claim depends on its arithmetic. -/
structure MatchOptions where
  fuzzy_cutoff : Int
  look_ahead : Nat
  exact_matches : Nat
  max_results : Nat
deriving Repr, DecidableEq

/-- Modelled from the spec: `BIGGEST_INT` from `coq/shared/sql.py` is the
"very large effective limit" used in place of true unbounded output (§4.4);
the largest signed 64-bit storage-engine integer. -/
def BIGGEST_INT : Nat := 2 ^ 63 - 1

/-- The `"limit"` parameter computed by `CTDB.select`:
`BIGGEST_INT if limitless else opts.max_results` (a Python int is truthy
exactly when nonzero). -/
def selectLimit (opts : MatchOptions) (limitless : Nat) : Nat :=
  if limitless ≠ 0 then BIGGEST_INT else opts.max_results

/-- Modelled from the spec: the candidate rows of `sql("select", "tags")`
before the LIMIT clause. The statement text is outside the excerpted
sources; §4.4 gives a case-insensitive LIKE-prefix pre-filter over the
`exact_matches`-long prefixes of the word and symbol tokens, and leaves the
fuzzy-scoring formula open (§9), so ranking is not modelled; the claims
settled here depend only on the LIMIT clause. -/
def matchingTags (st : DBState) (opts : MatchOptions)
    (word sym : String) : List Tag :=
  st.tags.filter fun t =>
    startsWithL (lower t.name) (lower (word.take opts.exact_matches))
      || startsWithL (lower t.name) (lower (sym.take opts.exact_matches))

/-- The rows returned by the `cont()` of `CTDB.select`: the matching rows
cut to the computed `"limit"` parameter. -/
def queryTags (st : DBState) (opts : MatchOptions) (word sym : String)
    (limitless : Nat) : List Tag :=
  (matchingTags st opts word sym).take (selectLimit opts limitless)

/-! ## Storage-operational errors and the recovery boundaries -/

/-- The storage-operational failures (`sqlite3.OperationalError`) the spec's
§7 taxonomy names. -/
inductive OpError where
  | locked
  | corrupt
  | ioFailure
deriving Repr, DecidableEq

/-- Modelled from the spec: the `sql("select", "files")` query of the
`cont()` of `CTDB.paths` — filename ↦ mtime over the stored File Entries. -/
def pathsQuery (st : DBState) : List (String × Int) :=
  st.files.map fun e => (e.filename, e.mtime)

/-- The `try`/`except OperationalError` boundary of `CTDB.paths`: a raised
storage error degrades to the empty mapping; it is never re-raised. -/
def pathsBoundary (r : Except OpError DBState) : List (String × Int) :=
  match r with
  | .ok st => pathsQuery st
  | .error _ => []

/-- The `try`/`except OperationalError` boundary of `CTDB.select`: a raised
storage error degrades to the empty sequence (`iter(())`). -/
def selectBoundary (r : Except OpError DBState) (opts : MatchOptions)
    (word sym : String) (limitless : Nat) : List Tag :=
  match r with
  | .ok st => queryTags st opts word sym limitless
  | .error _ => []

/-- A fallible storage engine: executing one statement either yields the new
state or raises a storage-operational error. -/
def Engine : Type := DBState → DBOp → Except OpError DBState

/-- The `with suppress(OperationalError)` body of `CTDB.reconciliate`: the
statements run in order; the first raised storage error abandons the rest of
the unit of work, keeping the state reached so far, and no error escapes. -/
def runSuppress (engine : Engine) : DBState → List DBOp → DBState
  | st, [] => st
  | st, op :: ops =>
      match engine st op with
      | .ok st' => runSuppress engine st' ops
      | .error _ => st

/-- `CTDB.reconciliate` against a fallible engine. -/
def reconciliateE (engine : Engine) (st : DBState) (dead : List String)
    (new : TagsMap) : DBState :=
  runSuppress engine st (reconciliateOps dead new)

/-- The engine that never fails: each statement takes its modelled effect. -/
def okEngine : Engine := fun st op => .ok (applyOp st op)

/-- An engine whose every statement raises the given storage error
(e.g. a locked or corrupt database file). -/
def failedEngine (e : OpError) : Engine := fun _ _ => .error e

/-! ## Database identity (`_init`) -/

/-- `_SCHEMA` from `coq/databases/tags/database.py`. -/
def _SCHEMA : String := "v5"

/-- The database file identity computed by `_init`:
`f"{md5(encode(normcase(cwd))).hexdigest()}-{_SCHEMA}"` with the `.sqlite3`
suffix appended by `with_suffix` (the stem holds no dot, so `with_suffix`
appends). `hash` (the hex MD5 digest) and `normcase` (`os.path.normcase`)
are external library functions, passed in as parameters. -/
def dbName (hash normcase : String → String) (cwd : String) : String :=
  hash (normcase cwd) ++ "-" ++ _SCHEMA ++ ".sqlite3"

/-! ## Serialized access queue (`SingleThreadExecutor`)

Modelled from the spec: `coq/shared/executor.py` is not in the excerpted
sources. §4.2/§5 describe it as a single dedicated worker that executes all
submitted units of work one at a time, each to completion, in submission
order; `CTDB.__init__` funnels every database operation (and `swap`, which
closes the old handle) through one such executor. -/

/-- A unit of work submitted to the `CTDB` executor. -/
inductive UnitOfWork where
  | paths
  | reconciliateJob (dead : List String) (new : TagsMap)
  | selectJob (opts : MatchOptions) (word sym : String) (limitless : Nat)
  | swap (cwd : String)
deriving DecidableEq

/-- A point in the execution trace: a unit of work starting or finishing. -/
inductive Phase where
  | start
  | fin
deriving Repr, DecidableEq

/-- Modelled from the spec: the single-threaded executor's execution trace —
each submitted unit of work starts and runs to completion (or failure)
before the next begins, in submission order. -/
def run : List UnitOfWork → List (UnitOfWork × Phase)
  | [] => []
  | j :: js => (j, .start) :: (j, .fin) :: run js

/-! ## Tree-sitter worker (`coq/clients/tree_sitter/worker.py`)

The opaque values (UUID tokens, future objects, reply payloads) are modelled
as `Nat` identifiers; nothing depends on their structure. -/

/-- The state of one `asyncio.Future`. -/
inductive FutState where
  | pending
  | cancelled
  | resolved (reply : Nat)
deriving Repr, DecidableEq

/-- `Future.set_result` under `suppress(InvalidStateError)` as in
`Worker.notify`: a pending future resolves; a done future is left as it is
(the raised `InvalidStateError` is suppressed). -/
def futSetResult (s : FutState) (reply : Nat) : FutState :=
  match s with
  | .pending => .resolved reply
  | s => s

/-- `Future.cancel` as called in `Worker._req`: a pending future becomes
cancelled; a done future is unchanged. -/
def futCancel (s : FutState) : FutState :=
  match s with
  | .pending => .cancelled
  | s => s

/-- The worker's correlation state: the current `self._cur = (token, fut)`
pair plus the states of all futures ever created, keyed by identifier. -/
structure WorkerState where
  curToken : Nat
  curFut : Nat
  futs : Nat → FutState

/-- `Worker.notify token msg`: only when the token equals the current one is
the current future resolved with the first element of `msg` (an empty `msg`
fails the unpacking before any state is touched); any other token leaves the
state untouched. -/
def notify (st : WorkerState) (token : Nat) (msg : List Nat) : WorkerState :=
  if token = st.curToken then
    match msg with
    | [] => st
    | reply :: _ =>
        { st with futs := fun f =>
            if f = st.curFut then futSetResult (st.futs f) reply
            else st.futs f }
  else st

/-- `Worker._req`: the previous future is cancelled, then a fresh
token/future pair is installed as `self._cur`, the new future pending. -/
def req (st : WorkerState) (token fut : Nat) : WorkerState :=
  { curToken := token
    curFut := fut
    futs := fun f =>
      if f = fut then .pending
      else if f = st.curFut then futCancel (st.futs f)
      else st.futs f }

/-! ## Tree-sitter `Worker.work` -/

/-- One payload of the decoded tree-sitter reply; `Worker.work` reads only
its `text`. -/
structure TSPayload where
  text : String
deriving Repr, DecidableEq

/-- A completion candidate as `Worker.work` builds it: `label` is the
stripped text, `sort_by` the locale-folded lowercased text (the locale
transform `strxfrm` is order-preserving and modelled as the identity on the
lowercased text), `new_text` the payload text of the primary edit. -/
structure Completion where
  label : String
  sort_by : String
  new_text : String
deriving Repr, DecidableEq

/-- The query token of `Worker.work`: `context.words or context.syms` —
`words` unless it is empty (falsy), else `syms`. -/
def queryWord (words syms : String) : String :=
  if words = "" then syms else words

/-- `Worker.work`: keep each payload whose lowercased text starts with the
lowercased query token and whose text is strictly longer than that (lowered)
token, and yield a completion whose primary edit inserts the payload text. -/
def work (words syms : String) (payloads : List TSPayload) : List Completion :=
  let mtch := lower (queryWord words syms)
  (payloads.filter fun p =>
      startsWithL (lower p.text) mtch
        && decide (mtch.length < p.text.length)).map
    fun p => { label := p.text.trim, sort_by := lower p.text, new_text := p.text }

end CoqNvim

namespace CoqNvim

/-! ## Claims C1 and C2 -/

theorem filter_decide_not_mem_filter_decide_not_mem
    {α : Type} [DecidableEq α] (key : α → String) (fs : List String)
    (l : List α) :
    ((l.filter fun e => decide (key e ∉ fs)).filter fun e => decide (key e ∉ fs))
      = l.filter fun e => decide (key e ∉ fs) := by
  simp [List.filter_filter]

/-- C1: `CTDB.reconciliate dead new` is a single unit of work made of exactly
four statements in order: delete the File Entries (with their Tags) of
`dead ∪ new.keys()`, insert one File Entry per entry of `new`, insert every
(nil-merged) tag of every file of `new`, then `PRAGMA optimize`; the
deletion set holds precisely the filenames of `dead` and the keys of `new`,
and running the unit of work applies the four statements in that order. -/
theorem reconciliate_order (dead : List String) (new : TagsMap) :
    reconciliateOps dead new
      = [ DBOp.deleteFiles (delset dead new)
        , DBOp.insertFiles (fileEntries new)
        , DBOp.insertTags (tagRecords new)
        , DBOp.optimize ]
    ∧ (∀ f : String, f ∈ delset dead new ↔ f ∈ dead ∨ f ∈ new.map (·.1))
    ∧ (∀ st : DBState,
        reconciliate st dead new
          = applyOp (applyOp (applyOp (applyOp st
              (DBOp.deleteFiles (delset dead new)))
              (DBOp.insertFiles (fileEntries new)))
              (DBOp.insertTags (tagRecords new)))
              DBOp.optimize) := by
  refine ⟨rfl, ?_, fun st => rfl⟩
  intro f
  simp [delset]

/-- C2: replace semantics — if every raw tag of `T2` names file `F` as its
`path` (the well-formedness the spec's §3 invariant demands), then after
`reconciliate ∅ {F ↦ (lang, mtime, T2)}` the tags queryable for `F` are
exactly the nil-merged `T2`, whatever tags `F` had before. -/
theorem reconciliate_replace (st : DBState) (F lang : String) (mtime : Int)
    (T2 : List RawTag) (hpath : ∀ t ∈ T2, (mergeTag t).path = F) :
    tagsOf (reconciliate st [] [(F, lang, mtime, T2)]) F = T2.map mergeTag := by
  show ((st.tags.filter fun t => decide (t.path ∉ delset [] [(F, lang, mtime, T2)]))
          ++ tagRecords [(F, lang, mtime, T2)]).filter (fun t => decide (t.path = F))
        = T2.map mergeTag
  rw [List.filter_append]
  have h1 : (st.tags.filter fun t =>
      decide (t.path ∉ delset [] [(F, lang, mtime, T2)])).filter
        (fun t => decide (t.path = F)) = [] := by
    refine List.filter_eq_nil_iff.mpr ?_
    intro t ht
    have := (List.mem_filter.mp ht).2
    simp only [delset, List.map, decide_eq_true_iff] at this
    simp only [decide_eq_true_iff] at this ⊢
    intro hc
    exact this (by simp [hc])
  have h2 : (tagRecords [(F, lang, mtime, T2)]).filter
      (fun t => decide (t.path = F)) = T2.map mergeTag := by
    have : tagRecords [(F, lang, mtime, T2)] = T2.map mergeTag := by
      simp [tagRecords]
    rw [this]
    refine List.filter_eq_self.mpr ?_
    intro t ht
    rcases List.mem_map.mp ht with ⟨r, hr, hrt⟩
    simpa [← hrt] using hpath r hr
  rw [h1, h2, List.nil_append]

/-- Witness for C2 at a concrete state: file "a.py" holding one old tag is
refreshed with a single new tag; the old tag is gone, the new one present. -/
theorem reconciliate_replace_witness :
    tagsOf
      (reconciliate
        { files := [{ filename := "a.py", filetype := "python", mtime := 1 }]
          tags := [{ _NIL_TAG with path := "a.py", name := "old_sym" }] }
        []
        [("a.py", "python", 2, [{ path := some "a.py", name := some "new_sym" }])])
      "a.py"
      = [{ _NIL_TAG with path := "a.py", name := "new_sym" }] := by
  have := reconciliate_replace
    { files := [{ filename := "a.py", filetype := "python", mtime := 1 }]
      tags := [{ _NIL_TAG with path := "a.py", name := "old_sym" }] }
    "a.py" "python" 2
    [{ path := some "a.py", name := some "new_sym" }]
    (by intro t ht; fin_cases ht; rfl)
  simpa [mergeTag, _NIL_TAG] using this

theorem reconciliate_closed_form (st : DBState) (dead : List String)
    (new : TagsMap) :
    reconciliate st dead new
      = { files := (st.files.filter fun e => decide (e.filename ∉ delset dead new))
            ++ fileEntries new
          tags := (st.tags.filter fun t => decide (t.path ∉ delset dead new))
            ++ tagRecords new } := rfl

/-- C3: idempotence — with a well-formed mapping `S` (every raw tag's merged
`path` is one of the keys of `S`, the shape the spec's §3 invariant and §7
contract demand of the extractor), running `reconciliate ∅ S` twice leaves
the very same File Entries and Tags as running it once. -/
theorem reconciliate_idempotent (st : DBState) (S : TagsMap)
    (h : ∀ e ∈ S, ∀ r ∈ e.2.2.2, (mergeTag r).path ∈ S.map (·.1)) :
    reconciliate (reconciliate st [] S) [] S = reconciliate st [] S := by
  have hE : (fileEntries S).filter
      (fun e => decide (e.filename ∉ delset [] S)) = [] := by
    refine List.filter_eq_nil_iff.mpr ?_
    intro e he
    rcases List.mem_map.mp he with ⟨x, hx, hxe⟩
    simp only [decide_eq_true_eq, Decidable.not_not, delset, List.nil_append]
    refine List.mem_map.mpr ⟨x, hx, ?_⟩
    rw [← hxe]
  have hN : (tagRecords S).filter
      (fun t => decide (t.path ∉ delset [] S)) = [] := by
    refine List.filter_eq_nil_iff.mpr ?_
    intro t ht
    rcases List.mem_flatMap.mp ht with ⟨e, he, hte⟩
    rcases List.mem_map.mp hte with ⟨r, hr, hrt⟩
    have hmem := h e he r hr
    rw [hrt] at hmem
    simp only [decide_eq_true_eq, Decidable.not_not, delset, List.nil_append]
    exact hmem
  have hfiles : ((st.files.filter (fun e => decide (e.filename ∉ delset [] S))
        ++ fileEntries S).filter (fun e => decide (e.filename ∉ delset [] S)))
        ++ fileEntries S
      = st.files.filter (fun e => decide (e.filename ∉ delset [] S))
        ++ fileEntries S := by
    rw [List.filter_append,
      filter_decide_not_mem_filter_decide_not_mem FileEntry.filename, hE,
      List.append_nil]
  have htags : ((st.tags.filter (fun t => decide (t.path ∉ delset [] S))
        ++ tagRecords S).filter (fun t => decide (t.path ∉ delset [] S)))
        ++ tagRecords S
      = st.tags.filter (fun t => decide (t.path ∉ delset [] S))
        ++ tagRecords S := by
    rw [List.filter_append,
      filter_decide_not_mem_filter_decide_not_mem Tag.path, hN,
      List.append_nil]
  have hstep : reconciliate (reconciliate st [] S) [] S
      = { files := ((st.files.filter (fun e => decide (e.filename ∉ delset [] S))
            ++ fileEntries S).filter (fun e => decide (e.filename ∉ delset [] S)))
            ++ fileEntries S
          tags := ((st.tags.filter (fun t => decide (t.path ∉ delset [] S))
            ++ tagRecords S).filter (fun t => decide (t.path ∉ delset [] S)))
            ++ tagRecords S } := rfl
  rw [hstep, hfiles, htags]
  rfl

/-- Witness for C3 at a concrete state and mapping. -/
theorem reconciliate_idempotent_witness :
    reconciliate
      (reconciliate { files := [], tags := [] } []
        [("a.py", "python", 1, [{ path := some "a.py", name := some "f" }])])
      [] [("a.py", "python", 1, [{ path := some "a.py", name := some "f" }])]
      = reconciliate { files := [], tags := [] } []
          [("a.py", "python", 1, [{ path := some "a.py", name := some "f" }])] :=
  reconciliate_idempotent { files := [], tags := [] }
    [("a.py", "python", 1, [{ path := some "a.py", name := some "f" }])]
    (by decide)

/-- C4: storage-operational errors are absorbed at the boundary: the `paths`
boundary returns the empty mapping on a raised error, the `select` boundary
the empty sequence, and a unit of work run under `suppress` stops at the
first raised error — the remainder is a no-op and no error escapes; in
particular a `reconciliate` whose first statement raises leaves the state
untouched. -/
theorem storage_errors_absorbed (e : OpError) (engine : Engine) (st : DBState)
    (dead : List String) (new : TagsMap) (opts : MatchOptions)
    (word sym : String) (limitless : Nat)
    (h : engine st (DBOp.deleteFiles (delset dead new)) = .error e) :
    pathsBoundary (.error e) = []
    ∧ selectBoundary (.error e) opts word sym limitless = []
    ∧ (∀ (st' : DBState) (op : DBOp) (ops : List DBOp),
        engine st' op = .error e → runSuppress engine st' (op :: ops) = st')
    ∧ reconciliateE engine st dead new = st := by
  refine ⟨rfl, rfl, ?_, ?_⟩
  · intro st' op ops hop
    simp [runSuppress, hop]
  · simp [reconciliateE, reconciliateOps, runSuppress, h]

/-- Witness for C4 with a locked database file and an empty state. -/
theorem storage_errors_absorbed_witness :
    pathsBoundary (Except.error OpError.locked) = []
    ∧ selectBoundary (Except.error OpError.locked)
        { fuzzy_cutoff := 0, look_ahead := 2, exact_matches := 2,
          max_results := 10 } "wo" "sy" 0 = []
    ∧ runSuppress (failedEngine OpError.locked) { files := [], tags := [] }
        (DBOp.optimize :: []) = { files := [], tags := [] }
    ∧ reconciliateE (failedEngine OpError.locked) { files := [], tags := [] }
        [] [] = { files := [], tags := [] } := by
  obtain ⟨h1, h2, h3, h4⟩ :=
    storage_errors_absorbed OpError.locked (failedEngine OpError.locked)
      { files := [], tags := [] } [] []
      { fuzzy_cutoff := 0, look_ahead := 2, exact_matches := 2,
        max_results := 10 } "wo" "sy" 0 rfl
  exact ⟨h1, h2, h3 { files := [], tags := [] } DBOp.optimize [] rfl, h4⟩

/-- C5: the database identity of `_init` is a function of the
case-normalized path alone — equal normalized paths give equal identities —
and distinct digests give distinct identities (so distinct normalized paths
collide only where the hash itself collides, which for MD5 happens with
negligible probability). -/
theorem dbName_deterministic (hash normcase : String → String)
    (p1 p2 : String) :
    (normcase p1 = normcase p2 →
      dbName hash normcase p1 = dbName hash normcase p2)
    ∧ (hash (normcase p1) ≠ hash (normcase p2) →
      dbName hash normcase p1 ≠ dbName hash normcase p2) := by
  constructor
  · intro h
    unfold dbName
    rw [h]
  · intro hne heq
    apply hne
    have hd := congrArg String.data heq
    simp only [dbName, String.data_append, List.append_assoc] at hd
    exact String.ext (List.append_left_injective _ hd)

/-- Witness for C5: equal paths agree, paths with distinct digests differ. -/
theorem dbName_deterministic_witness :
    dbName id id "/home/A" = dbName id id "/home/A"
    ∧ dbName id id "/home/A" ≠ dbName id id "/home/b" := by
  obtain ⟨h1, _⟩ := dbName_deterministic id id "/home/A" "/home/A"
  obtain ⟨_, h2⟩ := dbName_deterministic id id "/home/A" "/home/b"
  exact ⟨h1 rfl, h2 (by decide)⟩

/-- C6: with a falsy (zero) `limitless` flag, `select` returns at most
`opts.max_results` tags however many match; with a nonzero flag the query
limit is the fixed constant `BIGGEST_INT`, not a true absence of limit. -/
theorem select_result_cap (st : DBState) (opts : MatchOptions)
    (word sym : String) :
    (queryTags st opts word sym 0).length ≤ opts.max_results
    ∧ (∀ limitless : Nat, limitless ≠ 0 →
        selectLimit opts limitless = BIGGEST_INT) := by
  constructor
  · have h0 : selectLimit opts 0 = opts.max_results := by simp [selectLimit]
    calc (queryTags st opts word sym 0).length
        ≤ selectLimit opts 0 :=
          List.length_take_le (selectLimit opts 0)
            (matchingTags st opts word sym)
      _ = opts.max_results := h0
  · intro l hl
    simp [selectLimit, hl]

/-- Witness for C6 at a concrete state and options. -/
theorem select_result_cap_witness :
    (queryTags { files := [], tags := [] }
        { fuzzy_cutoff := 0, look_ahead := 2, exact_matches := 2,
          max_results := 10 } "w" "s" 0).length ≤ 10
    ∧ selectLimit
        { fuzzy_cutoff := 0, look_ahead := 2, exact_matches := 2,
          max_results := 10 } 1 = BIGGEST_INT := by
  obtain ⟨h1, h2⟩ := select_result_cap { files := [], tags := [] }
    { fuzzy_cutoff := 0, look_ahead := 2, exact_matches := 2,
      max_results := 10 } "w" "s"
  exact ⟨h1, h2 1 one_ne_zero⟩

/-- C7: the merge `{**_NIL_TAG, **tag}` — every field a raw record omits is
filled from the nil-tag template (`language`, `path`, `kind`, `name` to `""`,
`line` to `0`, `pattern`/`typeref`/`scope`/`scopeKind`/`access` to absent),
and every field the record carries overrides the template value. -/
theorem nil_tag_defaulting (r : RawTag) :
    (r.language = none → (mergeTag r).language = "")
    ∧ (∀ v, r.language = some v → (mergeTag r).language = v)
    ∧ (r.path = none → (mergeTag r).path = "")
    ∧ (∀ v, r.path = some v → (mergeTag r).path = v)
    ∧ (r.line = none → (mergeTag r).line = 0)
    ∧ (∀ v, r.line = some v → (mergeTag r).line = v)
    ∧ (r.kind = none → (mergeTag r).kind = "")
    ∧ (∀ v, r.kind = some v → (mergeTag r).kind = v)
    ∧ (r.name = none → (mergeTag r).name = "")
    ∧ (∀ v, r.name = some v → (mergeTag r).name = v)
    ∧ (r.pattern = none → (mergeTag r).pattern = none)
    ∧ (∀ v, r.pattern = some v → (mergeTag r).pattern = v)
    ∧ (r.typeref = none → (mergeTag r).typeref = none)
    ∧ (∀ v, r.typeref = some v → (mergeTag r).typeref = v)
    ∧ (r.scope = none → (mergeTag r).scope = none)
    ∧ (∀ v, r.scope = some v → (mergeTag r).scope = v)
    ∧ (r.scopeKind = none → (mergeTag r).scopeKind = none)
    ∧ (∀ v, r.scopeKind = some v → (mergeTag r).scopeKind = v)
    ∧ (r.access = none → (mergeTag r).access = none)
    ∧ (∀ v, r.access = some v → (mergeTag r).access = v) := by
  refine ⟨?_, ?_, ?_, ?_, ?_, ?_, ?_, ?_, ?_, ?_,
    ?_, ?_, ?_, ?_, ?_, ?_, ?_, ?_, ?_, ?_⟩ <;>
    · intros
      simp_all [mergeTag, _NIL_TAG]

/-- Witness for C7 on a raw tag carrying only `name` and `line`. -/
theorem nil_tag_defaulting_witness :
    (mergeTag { name := some "parse_config", line := some 10 }).language = ""
    ∧ (mergeTag { name := some "parse_config", line := some 10 }).name
        = "parse_config"
    ∧ (mergeTag { name := some "parse_config", line := some 10 }).line = 10
    ∧ (mergeTag { name := some "parse_config", line := some 10 }).pattern
        = none := by
  obtain ⟨a1, a2, a3, a4, a5, a6, a7, a8, a9, a10,
    a11, a12, a13, a14, a15, a16, a17, a18, a19, a20⟩ :=
    nil_tag_defaulting { name := some "parse_config", line := some 10 }
  exact ⟨a1 rfl, a10 "parse_config" rfl, a6 10 rfl, a11 rfl⟩

theorem run_events (js : List UnitOfWork) (i : Nat) :
    (run js).get? (2 * i) = (js.get? i).map (fun j => (j, Phase.start))
    ∧ (run js).get? (2 * i + 1) = (js.get? i).map (fun j => (j, Phase.fin)) := by
  induction js generalizing i with
  | nil => simp [run]
  | cons j js ih =>
    cases i with
    | zero => simp [run]
    | succ n =>
      obtain ⟨ha, hb⟩ := ih n
      have h1 : 2 * (n + 1) = 2 * n + 1 + 1 := by ring
      have h2 : 2 * (n + 1) + 1 = 2 * n + 1 + 1 + 1 := by ring
      constructor
      · rw [h1]
        simpa [run] using ha
      · rw [h2]
        simpa [run] using hb

/-- C8: in the single-worker trace, the unit of work queued at position `i`
occupies trace slots `2i` (start) and `2i+1` (finish), so the execution
intervals of distinct submissions never overlap (any earlier submission
finishes — slot `2a+1` — before any later one starts — slot `2b`); in
particular every unit of work queued before a `swap` completes or fails
before the swap (which closes the old handle) begins. -/
theorem executor_serializes (js : List UnitOfWork) (i k : Nat) (cwd : String)
    (hik : i < k) (hswap : js.get? k = some (UnitOfWork.swap cwd)) :
    2 * i + 1 < 2 * k
    ∧ (run js).get? (2 * i + 1) = (js.get? i).map (fun j => (j, Phase.fin))
    ∧ (run js).get? (2 * k) = some (UnitOfWork.swap cwd, Phase.start)
    ∧ (∀ a b : Nat, a < b → 2 * a + 1 < 2 * b) := by
  refine ⟨by omega, (run_events js i).2, ?_, fun a b h => by omega⟩
  rw [(run_events js k).1, hswap]
  rfl

/-- Witness for C8: a `paths` query queued before a `swap` finishes before
the swap starts. -/
theorem executor_serializes_witness :
    2 * 0 + 1 < 2 * 1
    ∧ (run [UnitOfWork.paths, UnitOfWork.swap "/w"]).get? (2 * 0 + 1)
        = some (UnitOfWork.paths, Phase.fin)
    ∧ (run [UnitOfWork.paths, UnitOfWork.swap "/w"]).get? (2 * 1)
        = some (UnitOfWork.swap "/w", Phase.start)
    ∧ (∀ a b : Nat, a < b → 2 * a + 1 < 2 * b) := by
  obtain ⟨h1, h2, h3, h4⟩ :=
    executor_serializes [UnitOfWork.paths, UnitOfWork.swap "/w"] 0 1 "/w"
      (by omega) rfl
  exact ⟨h1, h2, h3, h4⟩

/-- C9: token correlation in the tree-sitter worker — a `notify` whose token
differs from the current one leaves the whole state (hence the pending
future) untouched; a `notify` with the current token resolves the current
future exactly when it is pending and otherwise changes nothing (the
`InvalidStateError` is suppressed); `_req` cancels the previous future and
installs a fresh pending token/future pair; hence a reply for a superseded
request finds the old token no longer current and the old future stays
cancelled — its result is never delivered. -/
theorem token_correlation :
    (∀ (st : WorkerState) (t : Nat) (msg : List Nat),
        t ≠ st.curToken → notify st t msg = st)
    ∧ (∀ (st : WorkerState) (r : Nat) (rest : List Nat),
        st.futs st.curFut = .pending →
          (notify st st.curToken (r :: rest)).futs st.curFut = .resolved r)
    ∧ (∀ (st : WorkerState) (r : Nat) (rest : List Nat) (s : FutState),
        st.futs st.curFut = s → s ≠ .pending →
          (notify st st.curToken (r :: rest)).futs st.curFut = s)
    ∧ (∀ (st : WorkerState) (tk f : Nat), f ≠ st.curFut →
        (req st tk f).curToken = tk ∧ (req st tk f).curFut = f
        ∧ (req st tk f).futs f = .pending
        ∧ (req st tk f).futs st.curFut = futCancel (st.futs st.curFut))
    ∧ (∀ (st : WorkerState) (tk f : Nat) (msg : List Nat),
        tk ≠ st.curToken → f ≠ st.curFut → st.futs st.curFut = .pending →
          (notify (req st tk f) st.curToken msg).futs st.curFut
            = .cancelled) := by
  have habs : ∀ (st : WorkerState) (t : Nat) (msg : List Nat),
      t ≠ st.curToken → notify st t msg = st := by
    intro st t msg h
    simp [notify, h]
  refine ⟨habs, ?_, ?_, ?_, ?_⟩
  · intro st r rest hp
    simp [notify, futSetResult, hp]
  · intro st r rest s hs hsp
    cases s with
    | pending => exact absurd rfl hsp
    | cancelled => simp [notify, futSetResult, hs]
    | resolved v => simp [notify, futSetResult, hs]
  · intro st tk f hf
    refine ⟨rfl, rfl, by simp [req], ?_⟩
    simp [req, hf.symm]
  · intro st tk f msg htk hf hp
    rw [habs (req st tk f) st.curToken msg htk.symm]
    simp [req, futCancel, hf.symm, hp]

/-- Witness for C9: a stale-token reply changes nothing, a current-token
reply resolves, and a reply arriving for a superseded request leaves the
cancelled future cancelled. -/
theorem token_correlation_witness :
    notify { curToken := 0, curFut := 0, futs := fun _ => FutState.pending }
        1 [7]
      = { curToken := 0, curFut := 0, futs := fun _ => FutState.pending }
    ∧ (notify { curToken := 0, curFut := 0, futs := fun _ => FutState.pending }
        0 [7]).futs 0 = FutState.resolved 7
    ∧ (notify
        (req { curToken := 0, curFut := 0, futs := fun _ => FutState.pending }
          1 1)
        0 [7]).futs 0 = FutState.cancelled := by
  obtain ⟨h1, h2, _, _, h5⟩ := token_correlation
  exact ⟨h1 _ 1 [7] (by decide), h2 _ 7 [] rfl,
    h5 _ 1 1 [7] (by decide) (by decide) rfl⟩

/-- C10: every completion `Worker.work` yields has a text whose lowercased
form starts with the lowercased query token (`words`, or `syms` when `words`
is empty) and is strictly longer than that token; in particular it never
equals the token. -/
theorem work_prefix_and_longer (words syms : String) (ps : List TSPayload)
    (c : Completion) (hc : c ∈ work words syms ps) :
    startsWithL (lower c.new_text) (lower (queryWord words syms)) = true
    ∧ (queryWord words syms).length < c.new_text.length
    ∧ c.new_text ≠ queryWord words syms := by
  simp only [work] at hc
  rcases List.mem_map.mp hc with ⟨p, hp, hpc⟩
  have hf := (List.mem_filter.mp hp).2
  rw [Bool.and_eq_true] at hf
  obtain ⟨hs, hl⟩ := hf
  have hlen : (lower (queryWord words syms)).length
      = (queryWord words syms).length := by
    show ((queryWord words syms).data.map Char.toLower).length
      = (queryWord words syms).data.length
    exact List.length_map ..
  have hl' : (queryWord words syms).length < p.text.length := by
    rw [← hlen]
    exact of_decide_eq_true hl
  rw [← hpc]
  show startsWithL (lower p.text) (lower (queryWord words syms)) = true
    ∧ (queryWord words syms).length < p.text.length
    ∧ p.text ≠ queryWord words syms
  refine ⟨hs, hl', fun heq => ?_⟩
  rw [heq] at hl'
  exact lt_irrefl _ hl'

/-- Witness for C10: with query word "Fo", the payload "Food" is yielded and
satisfies the prefix and strict-length properties. -/
theorem work_prefix_and_longer_witness :
    startsWithL (lower "Food") (lower (queryWord "Fo" "")) = true
    ∧ (queryWord "Fo" "").length < ("Food" : String).length
    ∧ ("Food" : String) ≠ queryWord "Fo" "" := by
  have hmem :
      ({ label := ("Food" : String).trim
         sort_by := lower "Food"
         new_text := "Food" } : Completion)
      ∈ work "Fo" "" [{ text := "Food" }, { text := "Fo" }, { text := "bar" }] := by
    simp only [work]
    exact List.mem_map_of_mem _ (by decide)
  have h := work_prefix_and_longer "Fo" ""
    [{ text := "Food" }, { text := "Fo" }, { text := "bar" }]
    { label := ("Food" : String).trim
      sort_by := lower "Food"
      new_text := "Food" } hmem
  exact h
